import Mathlib

/-!
Shallow embedding of the Chord DHT webserver (crate `webserver`: `config.rs`,
`utils.rs`, `chord.rs`, `api.rs`, `network.rs`).  Identifiers are `u64` values
modelled as `Nat` with explicit modular reductions; the finger table is the
1-indexed vector of `chord.rs` modelled as a `List` whose index 0 entry is
unused.  Handlers that perform remote calls are modelled as pure functions of
the local state plus an explicit parameter carrying the remote outcome.
-/

namespace Chord

/-- Number of identifier bits; mirrors `pub const M: u32 = 16` in `config.rs`. -/
def M : Nat := 16

/-- Hop budget; mirrors `pub const HOP_LIMIT: u32 = 16` in `config.rs`. -/
def HOP_LIMIT : Nat := 16

/-- Mirrors `in_interval_open_open` in `utils.rs`: membership of `id` in the
open-open arc from `a` to `b` on the identifier circle. -/
def in_interval_open_open (id a b : Nat) : Bool :=
  if a < b then decide (id > a) && decide (id < b)
  else if a > b then decide (id > a) || decide (id < b)
  else false

/-- Mirrors `in_interval_open_closed` in `utils.rs`: membership of `id` in the
open-closed arc from `a` to `b`; the degenerate arc `a = b` is the whole ring. -/
def in_interval_open_closed (id a b : Nat) : Bool :=
  if a < b then decide (id > a) && decide (id ≤ b)
  else if a > b then decide (id > a) || decide (id ≤ b)
  else true

/-- Truncation of a `Nat` to a 32-bit word. -/
def w32 (x : Nat) : Nat := x % 4294967296

/-- Left rotation of a 32-bit word by `k` bits. -/
def rotl (k x : Nat) : Nat := ((x <<< k) ||| (x >>> (32 - k))) % 4294967296

/-- SHA-1 round function (FIPS 180-1), selected by round index `t`. -/
def sha1f (t b c d : Nat) : Nat :=
  if t < 20 then (b &&& c) ||| (((4294967295 : Nat) ^^^ b) &&& d)
  else if t < 40 then (b ^^^ c) ^^^ d
  else if t < 60 then ((b &&& c) ||| (b &&& d)) ||| (c &&& d)
  else (b ^^^ c) ^^^ d

/-- SHA-1 round constant (FIPS 180-1), selected by round index `t`. -/
def sha1k (t : Nat) : Nat :=
  if t < 20 then 0x5A827999
  else if t < 40 then 0x6ED9EBA1
  else if t < 60 then 0x8F1BBCDC
  else 0xCA62C1D6

/-- SHA-1 message padding: append `0x80`, zero bytes up to 56 mod 64, and the
original bit length as an 8-byte big-endian integer. -/
def sha1pad (msg : List Nat) : List Nat :=
  let len := msg.length
  let padZeros := (119 - len % 64) % 64
  msg ++ (128 :: List.replicate padZeros 0)
      ++ (List.range 8).map (fun i => ((8 * len) >>> (8 * (7 - i))) % 256)

/-- Split a byte list into successive 64-byte chunks. -/
def chunks64 (l : List Nat) : List (List Nat) :=
  if h : l = [] then [] else l.take 64 :: chunks64 (l.drop 64)
termination_by l.length
decreasing_by
  simp only [List.length_drop]
  have : l.length ≠ 0 := fun hz => h (List.eq_nil_of_length_eq_zero hz)
  omega

/-- Byte `j` of a chunk, zero when out of range. -/
def wbyte (chunk : List Nat) (j : Nat) : Nat := chunk.getD j 0

/-- Message-schedule word `w[i]` of a 64-byte chunk (FIPS 180-1). -/
def wword (chunk : List Nat) (i : Nat) : Nat :=
  if h : i < 16 then
    ((wbyte chunk (4 * i)) <<< 24) + ((wbyte chunk (4 * i + 1)) <<< 16)
      + ((wbyte chunk (4 * i + 2)) <<< 8) + wbyte chunk (4 * i + 3)
  else
    rotl 1 (((wword chunk (i - 3)) ^^^ (wword chunk (i - 8)))
              ^^^ ((wword chunk (i - 14)) ^^^ (wword chunk (i - 16))))
termination_by i
decreasing_by all_goals omega

/-- The five 32-bit working words of the SHA-1 compression function. -/
abbrev Sha1State := Nat × Nat × Nat × Nat × Nat

/-- One SHA-1 compression round. -/
def sha1round (chunk : List Nat) (st : Sha1State) (t : Nat) : Sha1State :=
  let a := st.1
  let b := st.2.1
  let c := st.2.2.1
  let d := st.2.2.2.1
  let e := st.2.2.2.2
  let temp := (rotl 5 a + sha1f t b c d + e + sha1k t + wword chunk t) % 4294967296
  (temp, a, rotl 30 b, c, d)

/-- Process one 64-byte chunk: 80 rounds, then add into the running state. -/
def processChunk (st : Sha1State) (chunk : List Nat) : Sha1State :=
  let r := (List.range 80).foldl (sha1round chunk) st
  (w32 (st.1 + r.1), w32 (st.2.1 + r.2.1), w32 (st.2.2.1 + r.2.2.1),
   w32 (st.2.2.2.1 + r.2.2.2.1), w32 (st.2.2.2.2 + r.2.2.2.2))

/-- Initial SHA-1 state (FIPS 180-1). -/
def sha1start : Sha1State := (0x67452301, 0xEFCDAB89, 0x98BADCFE, 0x10325476, 0xC3D2E1F0)

/-- Big-endian byte serialization of a 32-bit word. -/
def wordBytes (h : Nat) : List Nat :=
  [(h >>> 24) % 256, (h >>> 16) % 256, (h >>> 8) % 256, h % 256]

/-- SHA-1 digest (20 bytes) of a byte list; models the `sha1` crate call made
by `hash_key` in `utils.rs`. -/
def sha1 (msg : List Nat) : List Nat :=
  let r := (chunks64 (sha1pad msg)).foldl processChunk sha1start
  wordBytes r.1 ++ wordBytes r.2.1 ++ wordBytes r.2.2.1
    ++ wordBytes r.2.2.2.1 ++ wordBytes r.2.2.2.2

/-- UTF-8 bytes of a string, as natural numbers. -/
def strBytes (s : String) : List Nat := s.toUTF8.toList.map (fun b => b.toNat)

/-- Big-endian value of a byte list; models `u64::from_be_bytes`. -/
def fromBeBytes (bytes : List Nat) : Nat := bytes.foldl (fun acc b => acc * 256 + b) 0

/-- Mirrors `hash_key` in `utils.rs`: SHA-1 of the UTF-8 bytes of `key`; the
leading `M / 8` digest bytes fill the low end of an 8-byte big-endian buffer. -/
def hash_key (key : String) : Nat :=
  let result := sha1 (strBytes key)
  let n := M / 8
  let id_bytes := List.replicate (8 - n) 0 ++ result.take n
  fromBeBytes id_bytes

/-- Mirrors `NodeAddr` in `chord.rs`. -/
structure NodeAddr where
  host : String
  port : Nat
deriving Repr, DecidableEq

/-- Mirrors `NodeAddr::label`: the canonical string form of a peer address. -/
def NodeAddr.label (a : NodeAddr) : String := a.host ++ ":" ++ toString a.port

/-- Mirrors `Node` in `chord.rs`. -/
structure Node where
  id : Nat
  addr : NodeAddr
deriving Repr, DecidableEq

/-- Mirrors `Node::new`: derive the identifier by hashing the address label. -/
def Node.new (addr : NodeAddr) : Node := ⟨hash_key addr.label, addr⟩

/-- Mirrors `FingerEntry` in `chord.rs`. -/
structure FingerEntry where
  start : Nat
  node : Node
deriving Repr, DecidableEq

/-- Local Chord state: the `KnownNodes` fields of `chord.rs` plus the atomic
`fix_next` counter of `ChordNode`.  The finger table is 1-indexed with entry
0 unused, as in the source. -/
structure ChordState where
  me : Node
  predecessor : Node
  successor : Node
  finger_table : List FingerEntry
  fix_next : Nat
deriving Repr, DecidableEq

/-- Mirrors `id_space_mask` as computed in `chord.rs`: all ones over `M` bits. -/
def id_space_mask : Nat := if M == 64 then 2 ^ 64 - 1 else (1 <<< M) - 1

/-- Start value of finger `i`: wrapping 64-bit add of `2^(i-1)` followed by the
identifier-space mask, exactly as computed in `chord.rs`. -/
def fingerStart (meId : Nat) (i : Nat) : Nat :=
  ((meId + (1 <<< (i - 1))) % 2 ^ 64) &&& id_space_mask

/-- Mirrors `ChordNode::new`: a singleton state whose predecessor, successor
and every finger entry refer to the node itself. -/
def ChordNode.new (addr : NodeAddr) : ChordState :=
  let node := Node.new addr
  { me := node
    predecessor := node
    successor := node
    finger_table :=
      ⟨node.id, node⟩ :: (List.range M).map (fun j => ⟨fingerStart node.id (j + 1), node⟩)
    fix_next := 1 }

/-- Mirrors `ChordNode::responsible_for`. -/
def responsible_for (st : ChordState) (key : String) : Bool :=
  in_interval_open_closed (hash_key key) st.predecessor.id st.me.id

/-- Mirrors `ChordNode::closest_preceding_node`: scan the finger table from
index `M` down to 1 and return the first node inside the open-open arc, else
the successor. -/
def closest_preceding_node (st : ChordState) (id : Nat) : Node :=
  match ((st.finger_table.drop 1).reverse).find?
      (fun finger => in_interval_open_open finger.node.id st.me.id id) with
  | some finger => finger.node
  | none => st.successor

/-- Replace the `node` field of finger-table entry `i` when `i` is in bounds,
mirroring the bounds-guarded vector writes in `chord.rs` and `api.rs`. -/
def setFingerNode (ft : List FingerEntry) (i : Nat) (n : Node) : List FingerEntry :=
  match ft.get? i with
  | some e => ft.set i { e with node := n }
  | none => ft

/-- Shape of the `finger_updates` list produced by `ChordNode::join_prepare`:
the pair `(1, succ)` followed by, for each index in `[2, 4, 8]` that passes
the bounds test, the pair for that index when its RPC succeeded (`rpc i` is
the outcome of `rpc_find_successor` for index `i`). -/
def join_prepare_updates (succ : Node) (rpc : Nat → Option Node) (ftLen : Nat) :
    List (Nat × Node) :=
  (1, succ) ::
    ([2, 4, 8].filterMap (fun i =>
      if i ≤ M ∧ i < ftLen then (rpc i).map (fun n => (i, n)) else none))

/-- Mirrors `ChordNode::join_apply`: install the new successor, reset the
predecessor to self, and write the prepared finger updates. -/
def join_apply (st : ChordState) (succ : Node) (finger_updates : List (Nat × Node)) :
    ChordState :=
  { st with
    successor := succ
    predecessor := st.me
    finger_table := finger_updates.foldl (fun ft p => setFingerNode ft p.1 p.2) st.finger_table }

/-- The singleton test of `ChordNode::leave_prepare`: predecessor or successor
is the node itself. -/
def leave_is_singleton (st : ChordState) : Bool :=
  st.predecessor.id == st.me.id || st.successor.id == st.me.id

/-- The `for i in 1..=n` loop of `leave_apply` and `reset`: overwrite entry `i`
with a recomputed start and the node itself, for `i` from 1 to `n`.  (The
source indexes a vector of length `M + 1`; out-of-range writes do not occur
there, and `List.set` ignores them.) -/
def resetFingersAux (meId : Nat) (me : Node) (ft : List FingerEntry) : Nat → List FingerEntry
  | 0 => ft
  | j + 1 => (resetFingersAux meId me ft j).set (j + 1) ⟨fingerStart meId (j + 1), me⟩

/-- Mirrors `ChordNode::leave_apply`: reset to a singleton state. -/
def leave_apply (st : ChordState) : ChordState :=
  { st with
    predecessor := st.me
    successor := st.me
    finger_table := resetFingersAux st.me.id st.me st.finger_table M }

/-- Mirrors `ChordNode::reset`: the `leave_apply` reset plus the `fix_next`
counter returning to 1. -/
def reset (st : ChordState) : ChordState :=
  { st with
    predecessor := st.me
    successor := st.me
    finger_table := resetFingersAux st.me.id st.me st.finger_table M
    fix_next := 1 }

/-- State transition of the `/leave` endpoint (`post_leave` in `api.rs`):
`leave_apply` runs only when the node is not a singleton and both RPCs of
`leave_prepare` succeeded (`rpc_ok`). -/
def post_leave_state (st : ChordState) (rpc_ok : Bool) : ChordState :=
  if leave_is_singleton st then st
  else if rpc_ok then leave_apply st else st

/-- Successor update of `ChordNode::stabilize` on the successful RPC path:
`me` and `successor` are the snapshot taken before the RPC and `x` is the
fetched predecessor of the successor. -/
def stabilize_update (st : ChordState) (me successor x : Node) : ChordState :=
  let should_update := in_interval_open_open x.id me.id successor.id
  let new_successor := if should_update then x else successor
  if should_update || st.successor.id != new_successor.id then
    { st with
      successor := new_successor
      finger_table := setFingerNode st.finger_table 1 new_successor }
  else st

/-- Mirrors the write-locked body of the `/internal/notify` handler in
`api.rs`, with `n0` the notifying node. -/
def notify_apply (st : ChordState) (n0 : Node) : ChordState :=
  if st.successor.id == st.me.id then
    { st with
      successor := n0
      predecessor := n0
      finger_table := setFingerNode st.finger_table 1 n0 }
  else if st.predecessor.id == st.me.id
      || in_interval_open_open n0.id st.predecessor.id st.me.id then
    { st with predecessor := n0 }
  else st

/-- Mirrors the write-locked body of the `/internal/set-successor` handler in
`api.rs`: only the successor field is replaced. -/
def set_successor_apply (st : ChordState) (n : Node) : ChordState :=
  { st with successor := n }

/-- Mirrors the write-locked body of the `/internal/set-predecessor` handler in
`api.rs`. -/
def set_predecessor_apply (st : ChordState) (n : Node) : ChordState :=
  { st with predecessor := n }

/-- The `fix_next` cursor update performed by `ChordNode::fix_fingers`: add
one, and reset to 1 when the result exceeds `M`. -/
def fix_next_step (fixNext : Nat) : Nat :=
  let next := fixNext + 1
  if next > M then 1 else next

/-- Response bodies relevant to the modelled handlers. -/
inductive Body where
  | empty : Body
  | text : String → Body
  | node : Node → Body
deriving Repr, DecidableEq

/-- An HTTP response: status code and body. -/
structure Response where
  status : Nat
  body : Body
deriving Repr, DecidableEq

/-- Outcome of the forwarded `find-successor` call made by the handler in
`api.rs`: network error, a 503 from a crashed peer, a 2xx whose body fails to
decode as a Node, or a decoded Node. -/
inductive RemoteResult where
  | netErr : RemoteResult
  | crashed : RemoteResult
  | badJson : RemoteResult
  | ok : Node → RemoteResult
deriving Repr, DecidableEq

/-- Outcome of the forwarded storage request made by `forward_get` and
`forward_put` in `network.rs`: a transport error with its message, or a
response whose status and body are copied through. -/
inductive ForwardResult where
  | ok : Nat → String → ForwardResult
  | err : String → ForwardResult
deriving Repr, DecidableEq

/-- Decimal digit value of a character, as in Rust string-to-integer parsing. -/
def parseDigit (c : Char) : Option Nat :=
  if c.isDigit then some (c.toNat - 48) else none

/-- Accumulate decimal digits; any non-digit character fails the parse. -/
def parseDigitsAux (cs : List Char) (acc : Nat) : Option Nat :=
  match cs with
  | [] => some acc
  | c :: rest =>
    match parseDigit c with
    | some d => parseDigitsAux rest (acc * 10 + d)
    | none => none

/-- Models Rust `str::parse` for an unsigned integer type with exclusive upper
bound `bound`: an optional leading plus sign, then one or more decimal digits,
rejecting the empty digit string and out-of-range values. -/
def parseUInt (bound : Nat) (s : String) : Option Nat :=
  let cs :=
    match s.toList with
    | c :: rest => if c == '+' then rest else c :: rest
    | [] => []
  match cs with
  | [] => none
  | _ =>
    match parseDigitsAux cs 0 with
    | some v => if v < bound then some v else none
    | none => none

/-- Models `str::parse::<u64>` as used for the `id` query parameter. -/
def parseU64 : String → Option Nat := parseUInt (2 ^ 64)

/-- Models `str::parse::<u32>` as used for the `hops` query parameter. -/
def parseU32 : String → Option Nat := parseUInt (2 ^ 32)

/-- Routing logic of the `/internal/find-successor` handler in `api.rs` after
query parsing: every branch answers 200 with a Node body; the forwarded call,
made only on the final branch, is supplied as the explicit `remote` outcome. -/
def find_successor_core (st : ChordState) (id hops : Nat) (remote : RemoteResult) : Response :=
  if hops ≥ HOP_LIMIT then ⟨200, Body.node st.successor⟩
  else
    let me := st.me
    let successor := st.successor
    if in_interval_open_closed id me.id successor.id then ⟨200, Body.node successor⟩
    else
      let n0 := closest_preceding_node st id
      if n0.addr.label == me.addr.label then ⟨200, Body.node successor⟩
      else
        match remote with
        | RemoteResult.ok n => ⟨200, Body.node n⟩
        | RemoteResult.crashed => ⟨200, Body.node successor⟩
        | RemoteResult.badJson => ⟨200, Body.node successor⟩
        | RemoteResult.netErr => ⟨200, Body.node successor⟩

/-- The `/internal/find-successor` handler of `api.rs`: parse the `id` and
`hops` query parameters, defaulting each to 0 when missing or unparsable, then
run the routing logic. -/
def find_successor_handler (st : ChordState) (idParam hopsParam : Option String)
    (remote : RemoteResult) : Response :=
  let id := (idParam.bind parseU64).getD 0
  let hops := (hopsParam.bind parseU32).getD 0
  find_successor_core st id hops remote

/-- Mirrors `forward_get` in `network.rs`, with the forwarded request outcome
supplied as the explicit `remote` parameter. -/
def forward_get (st : ChordState) (key : String) (hop_count : Nat)
    (remote : ForwardResult) : Response :=
  if hop_count ≥ HOP_LIMIT then ⟨502, Body.text "Chord hop limit exceeded"⟩
  else if responsible_for st key then ⟨200, Body.empty⟩
  else
    match remote with
    | ForwardResult.ok status body => ⟨status, Body.text body⟩
    | ForwardResult.err e => ⟨502, Body.text ("forward error: " ++ e)⟩

/-- Mirrors `forward_put` in `network.rs`, with the forwarded request outcome
supplied as the explicit `remote` parameter. -/
def forward_put (st : ChordState) (key : String) (value : List Nat) (hop_count : Nat)
    (remote : ForwardResult) : Response :=
  if hop_count ≥ HOP_LIMIT then ⟨502, Body.text "Chord hop limit exceeded"⟩
  else if responsible_for st key then ⟨200, Body.empty⟩
  else
    match remote with
    | ForwardResult.ok status body => ⟨status, Body.text body⟩
    | ForwardResult.err e => ⟨502, Body.text ("forward error: " ++ e)⟩

/-- Invariant 1 of the specification: the first finger mirrors the successor
(node equality taken by id, as everywhere in the source). -/
def firstFingerInv (st : ChordState) : Prop :=
  (st.finger_table.get? 1).map (fun e => e.node.id) = some st.successor.id

instance decFirstFingerInv (st : ChordState) : Decidable (firstFingerInv st) :=
  inferInstanceAs (Decidable (_ = _))

/-- Finger table of a freshly constructed node with identity `n`. -/
def sampleFT (n : Node) : List FingerEntry :=
  ⟨n.id, n⟩ :: (List.range M).map (fun j => ⟨fingerStart n.id (j + 1), n⟩)

/-- Concrete node used by witnesses and counterexamples. -/
def nodeA : Node := ⟨5, ⟨"a", 1⟩⟩

/-- Concrete node used by witnesses and counterexamples. -/
def nodeB : Node := ⟨9, ⟨"b", 2⟩⟩

/-- Concrete node used by witnesses and counterexamples. -/
def nodeC : Node := ⟨7, ⟨"c", 3⟩⟩

/-- Concrete singleton state (as built by `ChordNode::new` for `nodeA`, with
the identifier fixed instead of hashed). -/
def stA : ChordState :=
  { me := nodeA, predecessor := nodeA, successor := nodeA
    finger_table := sampleFT nodeA, fix_next := 1 }

/-- Concrete two-node state: `nodeA` with `nodeB` as predecessor and successor,
first finger pointing at the successor. -/
def stAB : ChordState :=
  { me := nodeA, predecessor := nodeB, successor := nodeB
    finger_table := setFingerNode (sampleFT nodeA) 1 nodeB, fix_next := 1 }

theorem maskmod (x n : Nat) : x &&& (2 ^ n - 1) = x % 2 ^ n := by
  apply Nat.eq_of_testBit_eq
  intro i
  rw [Nat.testBit_land, Nat.testBit_mod_two_pow, Nat.testBit_two_pow_sub_one, Bool.and_comm]

theorem fingerStart_eq (meId i : Nat) :
    fingerStart meId i = (meId + 2 ^ (i - 1)) % 2 ^ M := by
  have hsh : (1 <<< (i - 1) : Nat) = 2 ^ (i - 1) := by rw [Nat.shiftLeft_eq]; ring
  have hmask : id_space_mask = 2 ^ 16 - 1 := by decide
  unfold fingerStart
  rw [hsh, hmask, maskmod, Nat.mod_mod_of_dvd _ (pow_dvd_pow 2 (by norm_num))]
  rfl

theorem resetFingersAux_length (meId : Nat) (me : Node) (ft : List FingerEntry) :
    ∀ n, (resetFingersAux meId me ft n).length = ft.length := by
  intro n
  induction n with
  | zero => rfl
  | succ j ih => simp [resetFingersAux, List.length_set, ih]

theorem resetFingersAux_get (meId : Nat) (me : Node) (ft : List FingerEntry) :
    ∀ n k, 1 ≤ k → k ≤ n → k < ft.length →
      (resetFingersAux meId me ft n).get? k = some ⟨fingerStart meId k, me⟩ := by
  intro n
  induction n with
  | zero => intro k h1 h2 _; omega
  | succ j ih =>
    intro k h1 h2 hk
    by_cases hkj : k = j + 1
    · subst hkj
      unfold resetFingersAux
      exact List.get?_set_eq_of_lt _ (by rw [resetFingersAux_length]; exact hk)
    · unfold resetFingersAux
      rw [List.get?_set_ne _ _ (by omega : j + 1 ≠ k)]
      exact ih k h1 (by omega) hk

theorem setFingerNode_get_eq (ft : List FingerEntry) (i : Nat) (n : Node) (e : FingerEntry)
    (h : ft.get? i = some e) :
    (setFingerNode ft i n).get? i = some { e with node := n } := by
  unfold setFingerNode
  rw [h]
  exact List.get?_set_eq_of_lt _ (List.get?_eq_some.mp h).1

theorem setFingerNode_get_ne (ft : List FingerEntry) (i j : Nat) (n : Node) (h : i ≠ j) :
    (setFingerNode ft i n).get? j = ft.get? j := by
  unfold setFingerNode
  cases hg : ft.get? i with
  | none => rfl
  | some e => rw [List.get?_set_ne _ _ h]

/-- C7: the degenerate arcs behave as specified — the empty open-open arc
contains nothing and the full-ring open-closed arc contains everything. -/
theorem degenerate_arcs (x a : Nat) :
    in_interval_open_open x a a = false ∧ in_interval_open_closed x a a = true := by
  constructor <;> simp [in_interval_open_open, in_interval_open_closed]

/-- C8: for a cursor value in `[1, M]`, the fix-fingers increment implemented
in `chord.rs` (add one, reset to 1 past `M`) equals the formula
`(fixNext % M) + 1`, and its result stays in `[1, M]` — so the cursor cycles
round-robin through the finger indices. -/
theorem fix_next_step_eq_formula (f : Nat) (h1 : 1 ≤ f) (h2 : f ≤ M) :
    fix_next_step f = f % M + 1 ∧ 1 ≤ fix_next_step f ∧ fix_next_step f ≤ M := by
  unfold fix_next_step
  unfold M at h2 ⊢
  simp only []
  split <;> omega

/-- C8 witness at the wrap-around point `fixNext = M`. -/
theorem fix_next_step_eq_formula_witness :
    fix_next_step 16 = 16 % M + 1 ∧ 1 ≤ fix_next_step 16 ∧ fix_next_step 16 ≤ M :=
  fix_next_step_eq_formula 16 (by decide) (by decide)

/-- C4: a freshly constructed singleton node is responsible for every key. -/
theorem singleton_responsible_for_all (addr : NodeAddr) (k : String) :
    responsible_for (ChordNode.new addr) k = true := by
  simp [responsible_for, ChordNode.new, in_interval_open_closed]

/-- C2: `closest_preceding_node` returns either a node strictly inside the
open-open arc from `me.id` to `id`, or the current successor when no scanned
finger-table entry lies in that arc. -/
theorem closest_preceding_node_spec (st : ChordState) (id : Nat) :
    in_interval_open_open (closest_preceding_node st id).id st.me.id id = true
    ∨ (closest_preceding_node st id = st.successor
        ∧ ∀ f ∈ st.finger_table.drop 1,
            in_interval_open_open f.node.id st.me.id id = false) := by
  unfold closest_preceding_node
  cases hf : ((st.finger_table.drop 1).reverse).find?
      (fun finger => in_interval_open_open finger.node.id st.me.id id) with
  | none =>
    right
    refine ⟨rfl, fun f hmem => ?_⟩
    have := List.find?_eq_none.mp hf f (List.mem_reverse.mpr hmem)
    simpa using this
  | some fo =>
    left
    simpa using List.find?_some hf

theorem hash_key_lt_aux (s : String) : hash_key s < 2 ^ M := by
  obtain ⟨x, y, hxy⟩ : ∃ x y, (sha1 (strBytes s)).take 2 = [x % 256, y % 256] := by
    unfold sha1 wordBytes
    exact ⟨_, _, rfl⟩
  unfold hash_key fromBeBytes
  simp only [M]
  norm_num
  rw [hxy]
  simp [List.replicate, List.foldl]
  omega

/-- C5: `hash_key` is deterministic — equal inputs give equal identifiers —
and every identifier it produces lies in `[0, 2^M)`.  (The SHA-1/leading-bytes
construction is the definition of `hash_key` itself.) -/
theorem hash_key_deterministic_and_bounded :
    (∀ s t : String, s = t → hash_key s = hash_key t) ∧ ∀ s : String, hash_key s < 2 ^ M :=
  ⟨fun _ _ h => h ▸ rfl, hash_key_lt_aux⟩

/-- C5 witness at the concrete key "abc". -/
theorem hash_key_deterministic_and_bounded_witness :
    hash_key "abc" = hash_key "abc" ∧ hash_key "abc" < 2 ^ M :=
  ⟨hash_key_deterministic_and_bounded.1 "abc" "abc" rfl,
   hash_key_deterministic_and_bounded.2 "abc"⟩

/-- C6: leaving is a no-op when the node is a singleton (predecessor or
successor is self), and the apply phase resets the node to a singleton —
predecessor and successor become `me` and every finger entry `i ∈ [1, M]`
becomes `(me.id + 2^(i-1)) mod 2^M` paired with `me`. -/
theorem leave_spec (st : ChordState) (h : st.finger_table.length = M + 1) :
    (leave_is_singleton st = true → ∀ ok, post_leave_state st ok = st)
    ∧ (leave_apply st).predecessor = st.me
    ∧ (leave_apply st).successor = st.me
    ∧ ∀ i, 1 ≤ i → i ≤ M →
        (leave_apply st).finger_table.get? i
          = some ⟨(st.me.id + 2 ^ (i - 1)) % 2 ^ M, st.me⟩ := by
  refine ⟨?_, rfl, rfl, ?_⟩
  · intro hs ok
    unfold post_leave_state
    simp [hs]
  · intro i h1 h2
    simp only [leave_apply]
    have hlen : i < st.finger_table.length := by
      rw [h]
      have : i ≤ 16 := by simpa [M] using h2
      simp [M]
      omega
    rw [resetFingersAux_get _ _ _ M i h1 h2 hlen, fingerStart_eq]

/-- C6 witness at the concrete singleton state, instantiated at finger 1. -/
theorem leave_spec_witness :
    stA.finger_table.length = M + 1
    ∧ (leave_apply stA).predecessor = stA.me
    ∧ (leave_apply stA).finger_table.get? 1
        = some ⟨(stA.me.id + 2 ^ (1 - 1)) % 2 ^ M, stA.me⟩ :=
  ⟨by decide, (leave_spec stA (by decide)).2.1,
   (leave_spec stA (by decide)).2.2.2 1 (by decide) (by decide)⟩

/-- C9: a singleton node (successor is self) handling `/internal/notify` with
body `n0` sets successor, predecessor and the first finger all to `n0`; in the
non-singleton case only the predecessor can change. -/
theorem notify_singleton_spec (st : ChordState) (n0 : Node)
    (hlen : 1 < st.finger_table.length) :
    (st.successor.id = st.me.id →
      (notify_apply st n0).successor = n0
      ∧ (notify_apply st n0).predecessor = n0
      ∧ ((notify_apply st n0).finger_table.get? 1).map (fun e => e.node) = some n0)
    ∧ (st.successor.id ≠ st.me.id →
      (notify_apply st n0).successor = st.successor
      ∧ (notify_apply st n0).finger_table = st.finger_table
      ∧ ((notify_apply st n0).predecessor = n0
          ∨ (notify_apply st n0).predecessor = st.predecessor)) := by
  constructor
  · intro hs
    unfold notify_apply
    rw [if_pos (by simp [hs])]
    refine ⟨rfl, rfl, ?_⟩
    obtain ⟨e, he⟩ : ∃ e, st.finger_table.get? 1 = some e := by
      cases hg : st.finger_table.get? 1 with
      | none => exact absurd (List.get?_eq_none.mp hg) (by omega)
      | some e => exact ⟨e, rfl⟩
    rw [setFingerNode_get_eq _ _ _ _ he]
    rfl
  · intro hs
    unfold notify_apply
    rw [if_neg (by simp [hs])]
    split
    · exact ⟨rfl, rfl, Or.inl rfl⟩
    · exact ⟨rfl, rfl, Or.inr rfl⟩

/-- C9 witness: the concrete singleton state notified by `nodeB`. -/
theorem notify_singleton_spec_witness :
    stA.successor.id = stA.me.id
    ∧ (notify_apply stA nodeB).successor = nodeB
    ∧ (notify_apply stA nodeB).predecessor = nodeB
    ∧ ((notify_apply stA nodeB).finger_table.get? 1).map (fun e => e.node) = some nodeB :=
  have h := (notify_singleton_spec stA nodeB (by decide)).1 (by decide)
  ⟨by decide, h.1, h.2.1, h.2.2⟩

/-- C3: at or past the hop limit, the internal find-successor logic answers
200 with its own current successor, while client-facing forwarding answers 502
with the hop-limit-exceeded body — in all three cases uniformly in the remote
outcome, i.e. without consulting any peer. -/
theorem hop_limit_spec (st : ChordState) (id hops : Nat) (key : String)
    (value : List Nat) (r : RemoteResult) (fg fp : ForwardResult)
    (h : hops ≥ HOP_LIMIT) :
    find_successor_core st id hops r = ⟨200, Body.node st.successor⟩
    ∧ forward_get st key hops fg = ⟨502, Body.text "Chord hop limit exceeded"⟩
    ∧ forward_put st key value hops fp = ⟨502, Body.text "Chord hop limit exceeded"⟩ := by
  unfold find_successor_core forward_get forward_put
  rw [if_pos h, if_pos h, if_pos h]
  exact ⟨rfl, rfl, rfl⟩

/-- C3 witness at exactly the hop limit. -/
theorem hop_limit_spec_witness :
    HOP_LIMIT ≤ 16
    ∧ find_successor_core stA 0 16 RemoteResult.netErr = ⟨200, Body.node stA.successor⟩
    ∧ forward_get stA "k" 16 (ForwardResult.err "e")
        = ⟨502, Body.text "Chord hop limit exceeded"⟩
    ∧ forward_put stA "k" [] 16 (ForwardResult.err "e")
        = ⟨502, Body.text "Chord hop limit exceeded"⟩ :=
  have h := hop_limit_spec stA 0 16 "k" [] RemoteResult.netErr
    (ForwardResult.err "e") (ForwardResult.err "e") (by decide)
  ⟨by decide, h.1, h.2.1, h.2.2⟩

theorem find_successor_core_status (st : ChordState) (id hops : Nat) (r : RemoteResult) :
    (find_successor_core st id hops r).status = 200
    ∧ ∃ n, (find_successor_core st id hops r).body = Body.node n := by
  unfold find_successor_core
  split
  · exact ⟨rfl, _, rfl⟩
  · simp only []
    split
    · exact ⟨rfl, _, rfl⟩
    · split
      · exact ⟨rfl, _, rfl⟩
      · cases r <;> exact ⟨rfl, _, rfl⟩

/-- C10: the find-successor endpoint never rejects its input — a missing or
unparsable `id` is treated as 0, a missing or unparsable `hops` as 0, and for
every request and remote outcome the answer is a 200 carrying a Node body. -/
theorem find_successor_handler_total (st : ChordState) (idParam hopsParam : Option String)
    (r : RemoteResult) :
    (idParam.bind parseU64 = none →
      find_successor_handler st idParam hopsParam r
        = find_successor_core st 0 ((hopsParam.bind parseU32).getD 0) r)
    ∧ (hopsParam.bind parseU32 = none →
      find_successor_handler st idParam hopsParam r
        = find_successor_core st ((idParam.bind parseU64).getD 0) 0 r)
    ∧ (find_successor_handler st idParam hopsParam r).status = 200
    ∧ ∃ n, (find_successor_handler st idParam hopsParam r).body = Body.node n := by
  refine ⟨?_, ?_, ?_, ?_⟩
  · intro h
    simp only [find_successor_handler]
    rw [h]
    rfl
  · intro h
    simp only [find_successor_handler]
    rw [h]
    rfl
  · exact (find_successor_core_status st _ _ r).1
  · exact (find_successor_core_status st _ _ r).2

/-- C10 witness: a non-numeric id parameter and a missing hops parameter. -/
theorem find_successor_handler_total_witness :
    (some "abc").bind parseU64 = none
    ∧ find_successor_handler stA (some "abc") none RemoteResult.netErr
        = find_successor_core stA 0 (((none : Option String).bind parseU32).getD 0)
            RemoteResult.netErr :=
  ⟨by decide,
   (find_successor_handler_total stA (some "abc") none RemoteResult.netErr).1 (by decide)⟩

theorem firstFingerInv_some (st : ChordState) (h : firstFingerInv st) :
    ∃ e, st.finger_table.get? 1 = some e ∧ e.node.id = st.successor.id := by
  unfold firstFingerInv at h
  cases hg : st.finger_table.get? 1 with
  | none => rw [hg] at h; simp at h
  | some e =>
    rw [hg] at h
    simp at h
    exact ⟨e, rfl, h⟩

theorem foldl_setFingerNode_get_one (l : List (Nat × Node)) :
    ∀ ft, (∀ p ∈ l, p.1 ≠ 1) →
      (l.foldl (fun ft p => setFingerNode ft p.1 p.2) ft).get? 1 = ft.get? 1 := by
  induction l with
  | nil => intro ft _; rfl
  | cons p rest ih =>
    intro ft h
    rw [List.foldl_cons, ih _ (fun q hq => h q (List.mem_cons_of_mem _ hq)),
        setFingerNode_get_ne _ _ _ _ (h p (List.mem_cons_self _ _))]

theorem join_updates_tail_ne_one (rpc : Nat → Option Node) (len : Nat) :
    ∀ p ∈ ([2, 4, 8].filterMap (fun i =>
        if i ≤ M ∧ i < len then (rpc i).map (fun n => (i, n)) else none)),
      (p : Nat × Node).1 ≠ 1 := by
  intro p hp
  rcases List.mem_filterMap.mp hp with ⟨i, hi, hf⟩
  have hpi : p.1 = i := by
    by_cases hc : i ≤ M ∧ i < len
    · rw [if_pos hc] at hf
      rcases Option.map_eq_some'.mp hf with ⟨n, _, hn⟩
      rw [← hn]
    · rw [if_neg hc] at hf
      simp at hf
  fin_cases hi <;> omega

/-- C1 (amended): the first-finger invariant `fingerTable[1].node == successor`
is preserved by construction, by `join_apply` on the updates `join_prepare`
produces, by `leave_apply`, by `reset`, by the stabilize successor update and
by the notify handler.  The `/internal/set-successor` handler, which replaces
only the successor field, is the exception — see the counterexample. -/
theorem first_finger_inv_preserved :
    (∀ addr, firstFingerInv (ChordNode.new addr))
    ∧ (∀ st succ rpc, firstFingerInv st →
        firstFingerInv (join_apply st succ
          (join_prepare_updates succ rpc st.finger_table.length)))
    ∧ (∀ st, firstFingerInv st → firstFingerInv (leave_apply st))
    ∧ (∀ st, firstFingerInv st → firstFingerInv (reset st))
    ∧ (∀ st me succ x, firstFingerInv st → firstFingerInv (stabilize_update st me succ x))
    ∧ (∀ st n0, firstFingerInv st → firstFingerInv (notify_apply st n0)) := by
  refine ⟨?_, ?_, ?_, ?_, ?_, ?_⟩
  · intro addr
    unfold firstFingerInv ChordNode.new
    simp only []
    rw [(by rfl : List.range M = [0, 1, 2, 3, 4, 5, 6, 7, 8, 9, 10, 11, 12, 13, 14, 15])]
    rfl
  · intro st succ rpc h
    obtain ⟨e, he, _⟩ := firstFingerInv_some st h
    unfold firstFingerInv join_apply join_prepare_updates
    simp only [List.foldl_cons]
    rw [foldl_setFingerNode_get_one _ _ (join_updates_tail_ne_one rpc _),
        setFingerNode_get_eq _ _ _ _ he]
    rfl
  · intro st h
    obtain ⟨e, he, _⟩ := firstFingerInv_some st h
    have hlen : 1 < st.finger_table.length := (List.get?_eq_some.mp he).1
    unfold firstFingerInv leave_apply
    simp only []
    rw [resetFingersAux_get _ _ _ M 1 (by norm_num) (by norm_num [M]) hlen]
    rfl
  · intro st h
    obtain ⟨e, he, _⟩ := firstFingerInv_some st h
    have hlen : 1 < st.finger_table.length := (List.get?_eq_some.mp he).1
    unfold firstFingerInv reset
    simp only []
    rw [resetFingersAux_get _ _ _ M 1 (by norm_num) (by norm_num [M]) hlen]
    rfl
  · intro st me succ x h
    obtain ⟨e, he, _⟩ := firstFingerInv_some st h
    unfold firstFingerInv stabilize_update
    simp only []
    split <;> split
    · rw [setFingerNode_get_eq _ _ _ _ he]
      rfl
    · exact h
    · rw [setFingerNode_get_eq _ _ _ _ he]
      rfl
    · exact h
  · intro st n0 h
    obtain ⟨e, he, _⟩ := firstFingerInv_some st h
    unfold firstFingerInv notify_apply
    split
    · rw [setFingerNode_get_eq _ _ _ _ he]
      rfl
    · split
      · exact h
      · exact h

/-- C1 counterexample: in a two-node state satisfying the invariant, the
`/internal/set-successor` handler installs a successor with a different id and
leaves the first finger behind, so the invariant does not survive it. -/
theorem set_successor_breaks_first_finger :
    firstFingerInv stAB ∧ ¬ firstFingerInv (set_successor_apply stAB nodeC) :=
  ⟨by decide, by decide⟩

/-- C1 witness: each preserving operation applied to the concrete two-node
state. -/
theorem first_finger_inv_preserved_witness :
    firstFingerInv (join_apply stAB nodeC
        (join_prepare_updates nodeC (fun _ => none) stAB.finger_table.length))
    ∧ firstFingerInv (leave_apply stAB)
    ∧ firstFingerInv (reset stAB)
    ∧ firstFingerInv (stabilize_update stAB stAB.me stAB.successor nodeC)
    ∧ firstFingerInv (notify_apply stAB nodeC) :=
  ⟨first_finger_inv_preserved.2.1 stAB nodeC (fun _ => none) (by decide),
   first_finger_inv_preserved.2.2.1 stAB (by decide),
   first_finger_inv_preserved.2.2.2.1 stAB (by decide),
   first_finger_inv_preserved.2.2.2.2.1 stAB stAB.me stAB.successor nodeC (by decide),
   first_finger_inv_preserved.2.2.2.2.2 stAB nodeC (by decide)⟩

end Chord
